import Mathlib

/-! # Verification of the pytoolkit Generator/Operator pipeline

Shallow embedding of the data-augmentation generator subsystem
(`pytoolkit/generator.py`, `pytoolkit/image.py`) and proofs of its
specified properties: steps-per-epoch arithmetic, unshuffled index
scheduling, per-sample determinism, presence-preservation assertions,
bounding-box flips, the mixup combinator, the bounded Random-Erasing
search, deep-copy isolation, and batch assembly. -/

namespace Pytoolkit

/-- `Generator.steps_per_epoch(data_count, batch_size)` and the unbalanced
branch of `GeneratorContext.steps_per_epoch`:
`(data_count + batch_size - 1) // batch_size`. -/
def stepsPerEpoch (dataCount batchSize : ℕ) : ℕ :=
  (dataCount + batchSize - 1) / batchSize

/-- Chunk structure of `np.array_split(np.arange(start, start + n), k)`:
`k` chunks of consecutive indices; the first chunk holds `ceil(n / k)`
indices and the rest recursively split the remainder into `k - 1` chunks
(numpy gives the first `n % k` chunks one extra element each, which this
recursion reproduces). -/
def arraySplitFrom : ℕ → ℕ → ℕ → List (List ℕ)
  | _, _, 0 => []
  | start, n, k + 1 =>
      List.range' start ((n + k) / (k + 1)) ::
        arraySplitFrom (start + (n + k) / (k + 1)) (n - (n + k) / (k + 1)) k

/-- `np.array_split(np.arange(n), k)`. -/
def arraySplit (n k : ℕ) : List (List ℕ) :=
  arraySplitFrom 0 n k

/-- The index batches of one lap of `Generator._flow_batch` in unshuffled
mode (`shuffle=False`, `balanced=False`):
`np.array_split(np.arange(data_count), steps)`. -/
def unshuffledIndexBatches (n b : ℕ) : List (List ℕ) :=
  arraySplit n (stepsPerEpoch n b)

/-- One lap of `Generator._flow_batch` in unshuffled mode including the
seeds: each yielded pair is `(batch_indices, seeds[batch_indices])`, where
`seeds lap i` models the i-th entry of the freshly drawn per-lap seed
array. -/
def flowBatchUnshuffled (n b : ℕ) (seeds : ℕ → ℕ → ℕ) (lap : ℕ) :
    List (List ℕ × List ℕ) :=
  (unshuffledIndexBatches n b).map (fun ix => (ix, ix.map (seeds lap)))

theorem arraySplitFrom_length (start n k : ℕ) :
    (arraySplitFrom start n k).length = k := by
  induction k generalizing start n with
  | zero => rfl
  | succ k ih => simp [arraySplitFrom, ih]

theorem ceilChunk_le (n k : ℕ) : (n + k) / (k + 1) ≤ n := by
  rw [Nat.div_le_iff_le_mul_add_pred (Nat.succ_pos k)]
  have h : (k + 1) * n + (k + 1 - 1) = k * n + n + k := by ring_nf; omega
  rw [h]
  nlinarith

theorem arraySplitFrom_join (start n k : ℕ) (hk : 1 ≤ k) :
    (arraySplitFrom start n k).flatten = List.range' start n := by
  induction k generalizing start n with
  | zero => omega
  | succ k ih =>
    cases k with
    | zero =>
      simp [arraySplitFrom]
    | succ k =>
      have hc := ceilChunk_le n (k + 1)
      rw [arraySplitFrom, List.flatten_cons, ih _ _ (by omega)]
      have h1 : (1 : ℕ) * ((n + (k + 1)) / (k + 1 + 1)) =
          (n + (k + 1)) / (k + 1 + 1) := one_mul _
      calc List.range' start ((n + (k + 1)) / (k + 1 + 1)) ++
              List.range' (start + (n + (k + 1)) / (k + 1 + 1))
                (n - (n + (k + 1)) / (k + 1 + 1))
          = List.range' start ((n + (k + 1)) / (k + 1 + 1)) ++
              List.range' (start + 1 * ((n + (k + 1)) / (k + 1 + 1)))
                (n - (n + (k + 1)) / (k + 1 + 1)) := by rw [h1]
        _ = List.range' start
              (n - (n + (k + 1)) / (k + 1 + 1) + (n + (k + 1)) / (k + 1 + 1)) :=
            List.range'_append _ _ _ _
        _ = List.range' start n := by rw [Nat.sub_add_cancel hc]

theorem ceilChunk_cases (n k : ℕ) :
    (n + k) / (k + 1) = n / (k + 1) ∨ (n + k) / (k + 1) = n / (k + 1) + 1 := by
  have hpos : 0 < k + 1 := Nat.succ_pos k
  have hqr := Nat.div_add_mod n (k + 1)
  have hr : n % (k + 1) < k + 1 := Nat.mod_lt _ hpos
  rcases Nat.eq_zero_or_pos (n % (k + 1)) with h0 | h1
  · left
    have he : n + k = (k + 1) * (n / (k + 1)) + k := by omega
    rw [he, Nat.mul_add_div hpos, Nat.div_eq_of_lt (show k < k + 1 by omega),
      Nat.add_zero]
  · right
    have he : n + k = (k + 1) * (n / (k + 1)) + (n % (k + 1) + k) := by omega
    have hd : (n % (k + 1) + k) / (k + 1) = 1 :=
      Nat.div_eq_of_lt_le (by omega) (by omega)
    rw [he, Nat.mul_add_div hpos, hd]

theorem arraySplit_tail_div (n k : ℕ) (hk : 1 ≤ k) :
    (n - (n + k) / (k + 1)) / k = n / (k + 1) := by
  have hpos : 0 < k + 1 := Nat.succ_pos k
  have hqr := Nat.div_add_mod n (k + 1)
  have hr : n % (k + 1) < k + 1 := Nat.mod_lt _ hpos
  have hdist : (k + 1) * (n / (k + 1)) = k * (n / (k + 1)) + n / (k + 1) := by
    ring
  rcases Nat.eq_zero_or_pos (n % (k + 1)) with h0 | h1
  · have hc : (n + k) / (k + 1) = n / (k + 1) := by
      have he : n + k = (k + 1) * (n / (k + 1)) + k := by omega
      rw [he, Nat.mul_add_div hpos, Nat.div_eq_of_lt (show k < k + 1 by omega),
      Nat.add_zero]
    rw [hc]
    have he2 : n - n / (k + 1) = k * (n / (k + 1)) := by omega
    rw [he2, Nat.mul_div_cancel_left _ (by omega)]
  · have hc : (n + k) / (k + 1) = n / (k + 1) + 1 := by
      have he : n + k = (k + 1) * (n / (k + 1)) + (n % (k + 1) + k) := by omega
      have hd : (n % (k + 1) + k) / (k + 1) = 1 :=
        Nat.div_eq_of_lt_le (by omega) (by omega)
      rw [he, Nat.mul_add_div hpos, hd]
    rw [hc]
    have he2 : n - (n / (k + 1) + 1) = k * (n / (k + 1)) + (n % (k + 1) - 1) := by
      omega
    rw [he2, Nat.mul_add_div (show 0 < k by omega),
      Nat.div_eq_of_lt (show n % (k + 1) - 1 < k by omega), Nat.add_zero]

theorem arraySplitFrom_sizes (k : ℕ) : ∀ start n, 1 ≤ k →
    ∀ L ∈ arraySplitFrom start n k, L.length = n / k ∨ L.length = n / k + 1 := by
  induction k with
  | zero => omega
  | succ k ih =>
    intro start n _ L hL
    rw [arraySplitFrom] at hL
    rcases List.mem_cons.mp hL with hhead | htail
    · subst hhead
      rw [List.length_range']
      exact ceilChunk_cases n k
    · cases k with
      | zero => simp [arraySplitFrom] at htail
      | succ k =>
        have := ih _ _ (by omega) L htail
        rwa [arraySplit_tail_div n (k + 1) (by omega)] at this

theorem stepsPerEpoch_pos (n b : ℕ) (hn : 1 ≤ n) (hb : 1 ≤ b) :
    1 ≤ stepsPerEpoch n b := by
  rw [stepsPerEpoch, Nat.le_div_iff_mul_le (by omega)]
  omega

/-- C2: in unshuffled mode (`shuffle=False`, `balanced=False`), one lap of
`_flow_batch` yields exactly `steps_per_epoch` index batches, batch sizes
differ by at most one, their concatenation is `0, 1, ..., data_count - 1`
(every index exactly once, ascending), the index batches do not depend on
the drawn seeds or on the lap number, and hence the same index sequence
recurs on every lap. -/
theorem unshuffled_lap_spec (n b : ℕ) (hn : 1 ≤ n) (hb : 1 ≤ b) :
    (unshuffledIndexBatches n b).length = stepsPerEpoch n b ∧
    (∀ L1 ∈ unshuffledIndexBatches n b, ∀ L2 ∈ unshuffledIndexBatches n b,
        L1.length ≤ L2.length + 1) ∧
    (unshuffledIndexBatches n b).flatten = List.range n ∧
    (∀ seeds seeds' : ℕ → ℕ → ℕ, ∀ lap lap' : ℕ,
        (flowBatchUnshuffled n b seeds lap).map Prod.fst =
          (flowBatchUnshuffled n b seeds' lap').map Prod.fst) := by
  have hs := stepsPerEpoch_pos n b hn hb
  refine ⟨arraySplitFrom_length 0 n _, ?_, ?_, ?_⟩
  · intro L1 h1 L2 h2
    have s1 := arraySplitFrom_sizes _ 0 n hs L1 h1
    have s2 := arraySplitFrom_sizes _ 0 n hs L2 h2
    omega
  · rw [unshuffledIndexBatches, arraySplit, arraySplitFrom_join 0 n _ hs,
      List.range_eq_range']
  · intro seeds seeds' lap lap'
    simp [flowBatchUnshuffled]

/-- Witness for C2 at `data_count = 5`, `batch_size = 2`: the hypotheses
hold and the lap consists of batches `[0,1], [2,3], [4]`. -/
theorem unshuffled_lap_spec_witness :
    (1 ≤ 5 ∧ 1 ≤ 2 ∧ unshuffledIndexBatches 5 2 = [[0, 1], [2, 3], [4]]) ∧
    ((unshuffledIndexBatches 5 2).length = stepsPerEpoch 5 2 ∧
      (∀ L1 ∈ unshuffledIndexBatches 5 2, ∀ L2 ∈ unshuffledIndexBatches 5 2,
          L1.length ≤ L2.length + 1) ∧
      (unshuffledIndexBatches 5 2).flatten = List.range 5 ∧
      (∀ seeds seeds' : ℕ → ℕ → ℕ, ∀ lap lap' : ℕ,
          (flowBatchUnshuffled 5 2 seeds lap).map Prod.fst =
            (flowBatchUnshuffled 5 2 seeds' lap').map Prod.fst)) :=
  ⟨⟨by omega, by omega, by decide⟩, unshuffled_lap_spec 5 2 (by omega) (by omega)⟩

/-- C8: in unbalanced mode, `steps_per_epoch` is the ceiling of
`data_count / batch_size`: it satisfies `steps * b ≥ n` and
`(steps - 1) * b < n`, and it is the least `k` with `n ≤ k * b`. -/
theorem stepsPerEpoch_ceil_spec (n b : ℕ) (hn : 1 ≤ n) (hb : 1 ≤ b) :
    n ≤ stepsPerEpoch n b * b ∧
    (stepsPerEpoch n b - 1) * b < n ∧
    (∀ k : ℕ, n ≤ k * b → stepsPerEpoch n b ≤ k) := by
  have hqr := Nat.div_add_mod (n + b - 1) b
  have hr : (n + b - 1) % b < b := Nat.mod_lt _ (by omega)
  have hcomm : stepsPerEpoch n b * b = b * ((n + b - 1) / b) := by
    rw [stepsPerEpoch]; ring
  have hsub : (stepsPerEpoch n b - 1) * b = stepsPerEpoch n b * b - 1 * b :=
    Nat.sub_mul _ _ _
  have h1 : n ≤ stepsPerEpoch n b * b := by omega
  have h2 : (stepsPerEpoch n b - 1) * b < n := by omega
  refine ⟨h1, h2, ?_⟩
  intro k hk
  have h3 : (stepsPerEpoch n b - 1) * b < k * b := lt_of_lt_of_le h2 hk
  have h4 : stepsPerEpoch n b - 1 < k := Nat.lt_of_mul_lt_mul_right h3
  omega

/-- Witness for C8 at `n = 7`, `b = 3`: `steps_per_epoch = 3`. -/
theorem stepsPerEpoch_ceil_spec_witness :
    (1 ≤ 7 ∧ 1 ≤ 3 ∧ stepsPerEpoch 7 3 = 3) ∧
    (7 ≤ stepsPerEpoch 7 3 * 3 ∧ (stepsPerEpoch 7 3 - 1) * 3 < 7 ∧
      (∀ k : ℕ, 7 ≤ k * 3 → stepsPerEpoch 7 3 ≤ k)) :=
  ⟨⟨by omega, by omega, by decide⟩, stepsPerEpoch_ceil_spec 7 3 (by omega) (by omega)⟩

/-! ## Balanced-mode steps per epoch (`GeneratorContext.y_classes`,
`GeneratorContext.steps_per_epoch`, balanced branch) -/

/-- A label array tagged with its `sklearn.utils.multiclass.type_of_target`
category, as dispatched on by `GeneratorContext.y_classes`; only the three
categories the code accepts (`continuous`, `continuous-multioutput`,
`binary`/`multiclass`) are representable. -/
inductive Labels
  | continuous (vals : List ℚ)
  | continuousMultioutput (rows : List (List ℚ))
  | intLabels (vals : List ℕ)

/-- Helper for `argmax`: scan the tail keeping the first maximal entry. -/
def argmaxAux : List ℚ → ℕ → ℕ → ℚ → ℕ
  | [], _, bi, _ => bi
  | a :: t, i, bi, bv =>
      if bv < a then argmaxAux t (i + 1) i a else argmaxAux t (i + 1) bi bv

/-- `np.argmax` over the last axis: index of the first maximal entry. -/
def argmax : List ℚ → ℕ
  | [] => 0
  | a :: t => argmaxAux t 1 0 a

/-- `GeneratorContext.y_classes`: threshold at `0.5` for `continuous`
targets, `argmax` for `continuous-multioutput` targets, identity for
`binary`/`multiclass` integer targets. -/
def yClasses : Labels → List ℕ
  | .continuous vals => vals.map (fun v => if (1 : ℚ) / 2 ≤ v then 1 else 0)
  | .continuousMultioutput rows => rows.map argmax
  | .intLabels vals => vals

/-- Maximum of a list of naturals (`0` on empty). -/
def listMax (l : List ℕ) : ℕ :=
  l.foldr max 0

/-- Minimum of a nonempty list of naturals (numpy `.min()`); `0` on empty. -/
def listMin : List ℕ → ℕ
  | [] => 0
  | a :: t => t.foldl min a

/-- `np.bincount`: occurrence counts of each value `0, ..., max`. -/
def bincount (l : List ℕ) : List ℕ :=
  if l = [] then [] else (List.range (listMax l + 1)).map (fun c => l.count c)

/-- Balanced branch of `GeneratorContext.steps_per_epoch`:
`np.bincount(y_classes).min() * len(np.bincount(y_classes))`. -/
def stepsPerEpochBalanced (y : Labels) : ℕ :=
  listMin (bincount (yClasses y)) * (bincount (yClasses y)).length

/-- The claim's "number of classes": distinct class ids present. -/
def numDistinctClasses (cls : List ℕ) : ℕ :=
  cls.dedup.length

/-- The claim's "number of samples in the smallest class": minimum count
over the class ids present. -/
def minPresentClassCount (cls : List ℕ) : ℕ :=
  listMin (cls.dedup.map (fun c => cls.count c))

theorem le_listMax {l : List ℕ} {a : ℕ} (h : a ∈ l) : a ≤ listMax l := by
  induction l with
  | nil => cases h
  | cons b t ih =>
    rcases List.mem_cons.mp h with rfl | ht
    · exact le_max_left _ _
    · exact le_trans (ih ht) (le_max_right _ _)


theorem foldl_min_le_init (t : List ℕ) : ∀ a, t.foldl min a ≤ a := by
  induction t with
  | nil => intro a; simp
  | cons b t ih =>
    intro a
    rw [List.foldl_cons]
    exact le_trans (ih (min a b)) (min_le_left _ _)

theorem foldl_min_mem (t : List ℕ) : ∀ a, t.foldl min a ∈ a :: t := by
  induction t with
  | nil => intro a; simp
  | cons b t ih =>
    intro a
    rw [List.foldl_cons]
    rcases List.mem_cons.mp (ih (min a b)) with he | ht
    · rw [he]
      rcases Nat.le_total a b with hab | hba
      · rw [min_eq_left hab]
        exact List.mem_cons_self _ _
      · rw [min_eq_right hba]
        exact List.mem_cons.mpr (Or.inr (List.mem_cons_self _ _))
    · exact List.mem_cons.mpr (Or.inr (List.mem_cons.mpr (Or.inr ht)))

theorem foldl_min_le_mem (t : List ℕ) : ∀ a x, x ∈ t → t.foldl min a ≤ x := by
  induction t with
  | nil => intro a x h; cases h
  | cons b t ih =>
    intro a x h
    rw [List.foldl_cons]
    rcases List.mem_cons.mp h with rfl | ht
    · exact le_trans (foldl_min_le_init t (min a x)) (min_le_right _ _)
    · exact ih (min a b) x ht

theorem listMin_mem {l : List ℕ} (h : l ≠ []) : listMin l ∈ l := by
  cases l with
  | nil => exact absurd rfl h
  | cons a t => exact foldl_min_mem t a

theorem listMin_le {l : List ℕ} {x : ℕ} (h : x ∈ l) : listMin l ≤ x := by
  cases l with
  | nil => cases h
  | cons a t =>
    show t.foldl min a ≤ x
    rcases List.mem_cons.mp h with rfl | ht
    · exact foldl_min_le_init t x
    · exact foldl_min_le_mem t a x ht

/-- C1 counterexample: for integer labels `[0, 2]` (valid `multiclass`
targets whose class ids have a gap), the code computes
`bincount = [1, 0, 1]`, so `steps_per_epoch = 0 * 3 = 0`, while the number
of samples in the smallest class times the number of classes is
`1 * 2 = 2`. -/
theorem balanced_steps_gap_counterexample :
    stepsPerEpochBalanced (.intLabels [0, 2]) = 0 ∧
    minPresentClassCount (yClasses (.intLabels [0, 2])) *
      numDistinctClasses (yClasses (.intLabels [0, 2])) = 2 ∧
    stepsPerEpochBalanced (.intLabels [0, 2]) ≠
      minPresentClassCount (yClasses (.intLabels [0, 2])) *
        numDistinctClasses (yClasses (.intLabels [0, 2])) :=
  ⟨by decide, by decide, by decide⟩

/-- C1 (amended): for a nonempty label array, when every class id from `0`
up to the maximum derived class id occurs at least once, balanced
`steps_per_epoch` equals the number of samples in the smallest class times
the number of classes (class assignment via the three-way branch of
`y_classes`); when some id in that range is absent, `steps_per_epoch` is
`0`. -/
theorem balanced_steps_spec (y : Labels) (hne : yClasses y ≠ []) :
    ((∀ c ≤ listMax (yClasses y), c ∈ yClasses y) →
        stepsPerEpochBalanced y =
          minPresentClassCount (yClasses y) * numDistinctClasses (yClasses y)) ∧
    ((∃ c, c ≤ listMax (yClasses y) ∧ c ∉ yClasses y) →
        stepsPerEpochBalanced y = 0) := by
  set cls := yClasses y with hcls
  have hbc : bincount cls =
      (List.range (listMax cls + 1)).map (fun c => cls.count c) := by
    rw [bincount, if_neg hne]
  have hbcne : ((List.range (listMax cls + 1)).map (fun c => cls.count c)) ≠ [] := by
    simp
  constructor
  · intro hfull
    have hdedne : cls.dedup ≠ [] := fun hd => hne ((List.dedup_eq_nil cls).mp hd)
    have hmapne : cls.dedup.map (fun c => cls.count c) ≠ [] := by
      simpa using hdedne
    have h1 : listMin (cls.dedup.map (fun c => cls.count c)) ≤
        listMin ((List.range (listMax cls + 1)).map (fun c => cls.count c)) := by
      rcases List.mem_map.mp (listMin_mem hbcne) with ⟨c, hcr, hcv⟩
      have hcv' : cls.count c =
          listMin ((List.range (listMax cls + 1)).map (fun c => cls.count c)) := hcv
      have hcM : c ≤ listMax cls := Nat.lt_succ_iff.mp (List.mem_range.mp hcr)
      have hcin : c ∈ cls.dedup := List.mem_dedup.mpr (hfull c hcM)
      have hmm : cls.count c ∈ cls.dedup.map (fun c => cls.count c) :=
        List.mem_map.mpr ⟨c, hcin, rfl⟩
      exact hcv' ▸ listMin_le hmm
    have h2 : listMin ((List.range (listMax cls + 1)).map (fun c => cls.count c)) ≤
        listMin (cls.dedup.map (fun c => cls.count c)) := by
      rcases List.mem_map.mp (listMin_mem hmapne) with ⟨c, hcin, hcv⟩
      have hcv' : cls.count c =
          listMin (cls.dedup.map (fun c => cls.count c)) := hcv
      have hcM : c ≤ listMax cls := le_listMax (List.mem_dedup.mp hcin)
      have hmm : cls.count c ∈
          (List.range (listMax cls + 1)).map (fun c => cls.count c) :=
        List.mem_map.mpr ⟨c, List.mem_range.mpr (Nat.lt_succ_of_le hcM), rfl⟩
      exact hcv' ▸ listMin_le hmm
    have htf : cls.toFinset = Finset.range (listMax cls + 1) := by
      ext c
      simp only [List.mem_toFinset, Finset.mem_range]
      exact ⟨fun h => Nat.lt_succ_of_le (le_listMax h),
        fun h => hfull c (Nat.lt_succ_iff.mp h)⟩
    have hlen : numDistinctClasses cls = listMax cls + 1 := by
      rw [numDistinctClasses, ← List.card_toFinset, htf, Finset.card_range]
    unfold stepsPerEpochBalanced minPresentClassCount
    rw [← hcls, hbc, List.length_map, List.length_range,
      Nat.le_antisymm h2 h1, hlen]
  · rintro ⟨c, hcM, hcnot⟩
    have hzero : (0 : ℕ) ∈ bincount cls := by
      rw [hbc]
      exact List.mem_map.mpr ⟨c, List.mem_range.mpr (Nat.lt_succ_of_le hcM),
        List.count_eq_zero.mpr hcnot⟩
    have hle := listMin_le hzero
    have hmin0 : listMin (bincount cls) = 0 := by omega
    unfold stepsPerEpochBalanced
    rw [← hcls, hmin0, Nat.zero_mul]

/-- Witness for C1 (amended) at integer labels `[1, 0, 0, 1, 2]`: class
ids `0, 1, 2` are all present, `bincount = [2, 2, 1]`, so balanced
`steps_per_epoch = 1 * 3 = 3`. -/
theorem balanced_steps_spec_witness :
    (yClasses (.intLabels [1, 0, 0, 1, 2]) ≠ [] ∧
      stepsPerEpochBalanced (.intLabels [1, 0, 0, 1, 2]) = 3) ∧
    ((∀ c ≤ listMax (yClasses (.intLabels [1, 0, 0, 1, 2])),
          c ∈ yClasses (.intLabels [1, 0, 0, 1, 2])) →
        stepsPerEpochBalanced (.intLabels [1, 0, 0, 1, 2]) =
          minPresentClassCount (yClasses (.intLabels [1, 0, 0, 1, 2])) *
            numDistinctClasses (yClasses (.intLabels [1, 0, 0, 1, 2]))) ∧
    ((∃ c, c ≤ listMax (yClasses (.intLabels [1, 0, 0, 1, 2])) ∧
          c ∉ yClasses (.intLabels [1, 0, 0, 1, 2])) →
        stepsPerEpochBalanced (.intLabels [1, 0, 0, 1, 2]) = 0) :=
  ⟨⟨by decide, by decide⟩, balanced_steps_spec (.intLabels [1, 0, 0, 1, 2]) (by decide)⟩

/-! ## Per-sample worker (`Generator._work`, `Generator._transform`) -/

/-- The mutable pseudo-random source handed to operators
(`np.random.RandomState`), modelled as an opaque state threaded through
the pipeline. -/
abbrev RandState := ℕ

/-- `np.random.RandomState(seed)`: a private source determined by the
scheduled seed alone. -/
def mkRandomState (seed : ℕ) : RandState :=
  seed

/-- A per-sample `(x, y, w)` triple as it flows through the pipeline. -/
abbrev Triple (χ υ ω : Type) := Option χ × Option υ × Option ω

/-- An `Operator.execute` step: consumes the triple and the random state,
returns the transformed triple and the advanced state. -/
abbrev Op (χ υ ω : Type) := Triple χ υ ω → RandState → Triple χ υ ω × RandState

/-- The operator chain of `Generator._transform`: operators applied in
insertion order, threading the per-sample RNG. -/
def runOps {χ υ ω : Type} (ops : List (Op χ υ ω)) (t : Triple χ υ ω)
    (r : RandState) : Triple χ υ ω × RandState :=
  ops.foldl (fun acc op => op acc.1 acc.2) (t, r)

/-- Ambient state of a worker thread: the scheduler's shared RNG and the
interleaving order of the thread pool. `_work` consults neither; the
parameter exists so that independence can be stated. -/
structure WorkerEnv where
  sharedRng : ℕ
  interleaving : List ℕ

/-- The transform part of `Generator._work`: look up the sample by index
(`_pick_next`), seed a private `RandomState` from the scheduled seed, run
the operator chain on it. -/
def workTransform {χ υ ω : Type} (ops : List (Op χ υ ω))
    (pick : ℕ → Triple χ υ ω) (ix seed : ℕ) (env : WorkerEnv) : Triple χ υ ω :=
  (runOps ops (pick ix) (mkRandomState seed)).1

/-- The assertion block of `Generator._work`: `none` models an
`AssertionError`, `some` the triple returned unchanged. -/
def checkTriple {χ υ ω : Type} (t0 t : Triple χ υ ω) : Option (Triple χ υ ω) :=
  if t.1.isNone || (t.2.1.isNone != t0.2.1.isNone) ||
      (t.2.2.isNone != t0.2.2.isNone) then
    none
  else
    some t

/-- `Generator._work`: transform the picked sample, then assert presence
preservation. -/
def work {χ υ ω : Type} (ops : List (Op χ υ ω)) (pick : ℕ → Triple χ υ ω)
    (ix seed : ℕ) (env : WorkerEnv) : Option (Triple χ υ ω) :=
  checkTriple (pick ix) (workTransform ops pick ix seed env)

/-- C3: the per-sample worker's output is a function of the operator
pipeline, the sample index and the scheduled seed only: it does not read
the shared RNG or depend on the thread interleaving, so two independent
executions agree. -/
theorem work_deterministic {χ υ ω : Type} (ops : List (Op χ υ ω))
    (pick : ℕ → Triple χ υ ω) (ix seed : ℕ) (env₁ env₂ : WorkerEnv) :
    workTransform ops pick ix seed env₁ = workTransform ops pick ix seed env₂ ∧
    work ops pick ix seed env₁ = work ops pick ix seed env₂ :=
  ⟨rfl, rfl⟩

theorem checkTriple_spec {χ υ ω : Type} (t0 t : Triple χ υ ω) :
    (checkTriple t0 t = none ↔
      (t.1 = none ∨ ¬((t.2.1 = none) ↔ (t0.2.1 = none)) ∨
        ¬((t.2.2 = none) ↔ (t0.2.2 = none)))) ∧
    ((t.1 ≠ none ∧ ((t.2.1 = none) ↔ (t0.2.1 = none)) ∧
        ((t.2.2 = none) ↔ (t0.2.2 = none))) → checkTriple t0 t = some t) := by
  obtain ⟨x, y, w⟩ := t
  obtain ⟨x0, y0, w0⟩ := t0
  cases x <;> cases y <;> cases w <;> cases y0 <;> cases w0 <;>
    simp [checkTriple]

/-- C4: in the batch-producing path, `_work` raises an assertion failure
iff the transformed triple violates presence preservation (result `x` is
`None`, or result label/weight `None`-ness differs from the input's); when
the invariant holds the transformed triple is returned unchanged. -/
theorem work_presence_assertion {χ υ ω : Type} (ops : List (Op χ υ ω))
    (pick : ℕ → Triple χ υ ω) (ix seed : ℕ) (env : WorkerEnv) :
    (work ops pick ix seed env = none ↔
      ((workTransform ops pick ix seed env).1 = none ∨
        ¬(((workTransform ops pick ix seed env).2.1 = none) ↔
            ((pick ix).2.1 = none)) ∨
        ¬(((workTransform ops pick ix seed env).2.2 = none) ↔
            ((pick ix).2.2 = none)))) ∧
    (((workTransform ops pick ix seed env).1 ≠ none ∧
        (((workTransform ops pick ix seed env).2.1 = none) ↔
          ((pick ix).2.1 = none)) ∧
        (((workTransform ops pick ix seed env).2.2 = none) ↔
          ((pick ix).2.2 = none))) →
      work ops pick ix seed env = some (workTransform ops pick ix seed env)) :=
  checkTriple_spec (pick ix) (workTransform ops pick ix seed env)

/-- An operator that discards a present label, used as the concrete
violating pipeline in the C4 witness. -/
def dropLabelOp : Op ℕ ℕ ℕ :=
  fun t r => ((t.1, none, t.2.2), r)

/-- An identity operator, used as the concrete well-behaved pipeline in
the C4 witness. -/
def idOp : Op ℕ ℕ ℕ :=
  fun t r => (t, r)

/-- Witness for C4: with samples `(some 1, some 2, some 3)`, the pipeline
`[dropLabelOp]` trips the assertion (`none`) and the pipeline `[idOp]`
passes it, both as the theorem predicts. -/
theorem work_presence_assertion_witness :
    (work [dropLabelOp] (fun _ => (some 1, some 2, some 3)) 0 42 ⟨0, []⟩ = none ∧
      work [idOp] (fun _ => (some 1, some 2, some 3)) 0 42 ⟨0, []⟩ =
        some (some 1, some 2, some 3)) ∧
    (((workTransform [idOp] (fun _ => (some 1, some 2, some 3)) 0 42 ⟨0, []⟩).1 ≠
          none ∧
        (((workTransform [idOp] (fun _ => (some 1, some 2, some 3)) 0 42
              ⟨0, []⟩).2.1 = none) ↔
          (((fun _ => ((some 1 : Option ℕ), (some 2 : Option ℕ),
              (some 3 : Option ℕ))) 0).2.1 = none)) ∧
        (((workTransform [idOp] (fun _ => (some 1, some 2, some 3)) 0 42
              ⟨0, []⟩).2.2 = none) ↔
          (((fun _ => ((some 1 : Option ℕ), (some 2 : Option ℕ),
              (some 3 : Option ℕ))) 0).2.2 = none))) →
      work [idOp] (fun _ => (some 1, some 2, some 3)) 0 42 ⟨0, []⟩ =
        some (workTransform [idOp] (fun _ => (some 1, some 2, some 3)) 0 42
          ⟨0, []⟩)) :=
  ⟨⟨by decide, by decide⟩,
    (work_presence_assertion [idOp] (fun _ => (some 1, some 2, some 3)) 0 42
      ⟨0, []⟩).2⟩

/-! ## Deep-copy isolation (`Generator._transform`) -/

/-- A heap of array objects: `mem` maps addresses to current contents,
addresses below `next` are allocated. Models Python object identity, so
that in-place mutation by operators is observable. -/
structure Heap (V : Type) where
  mem : ℕ → V
  next : ℕ

/-- Allocate a fresh object holding `v` (`copy.deepcopy` allocates). -/
def halloc {V : Type} (h : Heap V) (v : V) : Heap V × ℕ :=
  ({ mem := Function.update h.mem h.next v, next := h.next + 1 }, h.next)

/-- The observable effect of one `Operator.execute` on the per-sample
triple: new `(x, y, w)` contents computed from the old ones. -/
abbrev InPlaceOp (V : Type) := V × V × V → V × V × V

/-- Store an operator's result triple into the per-sample working cells. -/
def writeTriple {V : Type} (m : ℕ → V) (cx cy cw : ℕ) (v : V × V × V) : ℕ → V :=
  Function.update (Function.update (Function.update m cx v.1) cy v.2.1) cw v.2.2

/-- The operator loop of `_transform`: each operator reads the working
cells and its result is stored back into them. -/
def runChain {V : Type} (ops : List (InPlaceOp V)) (m : ℕ → V) (cx cy cw : ℕ) :
    ℕ → V :=
  ops.foldl (fun mem op => writeTriple mem cx cy cw (op (mem cx, mem cy, mem cw))) m

/-- `Generator._transform`: deep-copy `x`, `y`, `w` once into fresh cells,
then run every operator on the copies. Returns the resulting heap and the
addresses of the three working cells. -/
def transformHeap {V : Type} (ops : List (InPlaceOp V)) (h : Heap V)
    (ax ay aw : ℕ) : Heap V × ℕ × ℕ × ℕ :=
  let (h1, cx) := halloc h (h.mem ax)
  let (h2, cy) := halloc h1 (h.mem ay)
  let (h3, cw) := halloc h2 (h.mem aw)
  ({ mem := runChain ops h3.mem cx cy cw, next := h3.next }, cx, cy, cw)

theorem runChain_preserve {V : Type} (ops : List (InPlaceOp V)) (cx cy cw a : ℕ)
    (hx : a ≠ cx) (hy : a ≠ cy) (hw : a ≠ cw) :
    ∀ m : ℕ → V, runChain ops m cx cy cw a = m a := by
  induction ops with
  | nil => intro m; rfl
  | cons op t ih =>
    intro m
    show runChain t (writeTriple m cx cy cw (op (m cx, m cy, m cw))) cx cy cw a = m a
    rw [ih]
    rw [writeTriple, Function.update_noteq hw, Function.update_noteq hy,
      Function.update_noteq hx]

theorem writeTriple_cells {V : Type} (m : ℕ → V) (cx cy cw : ℕ)
    (v : V × V × V) (hxy : cx ≠ cy) (hxw : cx ≠ cw) (hyw : cy ≠ cw) :
    writeTriple m cx cy cw v cx = v.1 ∧ writeTriple m cx cy cw v cy = v.2.1 ∧
      writeTriple m cx cy cw v cw = v.2.2 := by
  refine ⟨?_, ?_, ?_⟩
  · rw [writeTriple, Function.update_noteq hxw, Function.update_noteq hxy,
      Function.update_same]
  · rw [writeTriple, Function.update_noteq hyw, Function.update_same]
  · rw [writeTriple, Function.update_same]

theorem runChain_cells {V : Type} (ops : List (InPlaceOp V)) (cx cy cw : ℕ)
    (hxy : cx ≠ cy) (hxw : cx ≠ cw) (hyw : cy ≠ cw) :
    ∀ m : ℕ → V,
      (runChain ops m cx cy cw cx, runChain ops m cx cy cw cy,
          runChain ops m cx cy cw cw) =
        ops.foldl (fun t op => op t) (m cx, m cy, m cw) := by
  induction ops with
  | nil => intro m; rfl
  | cons op t ih =>
    intro m
    show (runChain t (writeTriple m cx cy cw (op (m cx, m cy, m cw))) cx cy cw cx,
        runChain t (writeTriple m cx cy cw (op (m cx, m cy, m cw))) cx cy cw cy,
        runChain t (writeTriple m cx cy cw (op (m cx, m cy, m cw))) cx cy cw cw) =
      t.foldl (fun t op => op t) (op (m cx, m cy, m cw))
    rw [ih]
    obtain ⟨w1, w2, w3⟩ := writeTriple_cells m cx cy cw (op (m cx, m cy, m cw))
      hxy hxw hyw
    rw [w1, w2, w3]

/-- C9: `_transform` deep-copies the picked `(x, y, w)` triple exactly once
into fresh cells before the operator chain runs, and the chain only
touches the copies: every previously allocated object (in particular the
dataset's original arrays) is unchanged afterwards, and the copies end up
holding exactly the fold of the operator pipeline over the original
values. -/
theorem transform_no_mutation {V : Type} (ops : List (InPlaceOp V))
    (h : Heap V) (ax ay aw a : ℕ) (ha : a < h.next) :
    ((transformHeap ops h ax ay aw).1.mem a = h.mem a) ∧
    ((transformHeap ops h ax ay aw).1.mem (transformHeap ops h ax ay aw).2.1,
        (transformHeap ops h ax ay aw).1.mem (transformHeap ops h ax ay aw).2.2.1,
        (transformHeap ops h ax ay aw).1.mem (transformHeap ops h ax ay aw).2.2.2) =
      ops.foldl (fun t op => op t) (h.mem ax, h.mem ay, h.mem aw) := by
  have hxy : h.next ≠ h.next + 1 := by omega
  have hxw : h.next ≠ h.next + 2 := by omega
  have hyw : h.next + 1 ≠ h.next + 2 := by omega
  have hax : a ≠ h.next := by omega
  have hay : a ≠ h.next + 1 := by omega
  have haw : a ≠ h.next + 2 := by omega
  constructor
  · show runChain ops
        (Function.update (Function.update (Function.update h.mem h.next (h.mem ax))
          (h.next + 1) (h.mem ay)) (h.next + 2) (h.mem aw))
        h.next (h.next + 1) (h.next + 2) a = h.mem a
    rw [runChain_preserve ops _ _ _ a hax hay haw,
      Function.update_noteq haw, Function.update_noteq hay,
      Function.update_noteq hax]
  · show (runChain ops
        (Function.update (Function.update (Function.update h.mem h.next (h.mem ax))
          (h.next + 1) (h.mem ay)) (h.next + 2) (h.mem aw))
        h.next (h.next + 1) (h.next + 2) h.next,
      runChain ops
        (Function.update (Function.update (Function.update h.mem h.next (h.mem ax))
          (h.next + 1) (h.mem ay)) (h.next + 2) (h.mem aw))
        h.next (h.next + 1) (h.next + 2) (h.next + 1),
      runChain ops
        (Function.update (Function.update (Function.update h.mem h.next (h.mem ax))
          (h.next + 1) (h.mem ay)) (h.next + 2) (h.mem aw))
        h.next (h.next + 1) (h.next + 2) (h.next + 2)) = _
    rw [runChain_cells ops _ _ _ hxy hxw hyw]
    have c1 : (Function.update (Function.update (Function.update h.mem h.next
        (h.mem ax)) (h.next + 1) (h.mem ay)) (h.next + 2) (h.mem aw)) h.next =
        h.mem ax := by
      rw [Function.update_noteq hxw, Function.update_noteq hxy,
        Function.update_same]
    have c2 : (Function.update (Function.update (Function.update h.mem h.next
        (h.mem ax)) (h.next + 1) (h.mem ay)) (h.next + 2) (h.mem aw))
        (h.next + 1) = h.mem ay := by
      rw [Function.update_noteq hyw, Function.update_same]
    have c3 : (Function.update (Function.update (Function.update h.mem h.next
        (h.mem ax)) (h.next + 1) (h.mem ay)) (h.next + 2) (h.mem aw))
        (h.next + 2) = h.mem aw := by
      rw [Function.update_same]
    rw [c1, c2, c3]

/-- Witness for C9: one sample, one increment operator on a 1-cell heap;
the original cell is untouched and the copy holds the operator's result. -/
theorem transform_no_mutation_witness :
    0 < 1 ∧
    (((transformHeap [fun t => (t.1 + 1, t.2.1, t.2.2)]
          (Heap.mk (fun _ => 5) 1) 0 0 0).1.mem 0 = (fun _ : ℕ => (5 : ℕ)) 0) ∧
      ((transformHeap [fun t => (t.1 + 1, t.2.1, t.2.2)]
            (Heap.mk (fun _ => 5) 1) 0 0 0).1.mem
          (transformHeap [fun t => (t.1 + 1, t.2.1, t.2.2)]
            (Heap.mk (fun _ => 5) 1) 0 0 0).2.1,
        (transformHeap [fun t => (t.1 + 1, t.2.1, t.2.2)]
            (Heap.mk (fun _ => 5) 1) 0 0 0).1.mem
          (transformHeap [fun t => (t.1 + 1, t.2.1, t.2.2)]
            (Heap.mk (fun _ => 5) 1) 0 0 0).2.2.1,
        (transformHeap [fun t => (t.1 + 1, t.2.1, t.2.2)]
            (Heap.mk (fun _ => 5) 1) 0 0 0).1.mem
          (transformHeap [fun t => (t.1 + 1, t.2.1, t.2.2)]
            (Heap.mk (fun _ => 5) 1) 0 0 0).2.2.2) =
        [fun t : ℕ × ℕ × ℕ => (t.1 + 1, t.2.1, t.2.2)].foldl (fun t op => op t)
          ((fun _ : ℕ => (5 : ℕ)) 0, (fun _ : ℕ => (5 : ℕ)) 0,
            (fun _ : ℕ => (5 : ℕ)) 0)) :=
  ⟨by omega,
    transform_no_mutation [fun t => (t.1 + 1, t.2.1, t.2.2)]
      (Heap.mk (fun _ => 5) 1) 0 0 0 0 (by decide)⟩

/-! ## `RandomFlipLR` (`pytoolkit/image.py`) -/

/-- A normalized bounding box row `[x1, y1, x2, y2]` of a
`tk.ml.ObjectsAnnotation` bbox array. -/
structure BBox where
  x1 : ℚ
  y1 : ℚ
  x2 : ℚ
  y2 : ℚ
deriving DecidableEq

/-- A label as `RandomFlipLR.execute` inspects it: an `ObjectsAnnotation`
carrying its bbox array, or any other label value (left untouched). -/
inductive FlipLabel
  | objects (bboxes : List BBox)
  | plain

/-- An image as a grid of pixels. -/
abbrev Image (π : Type) := List (List π)

/-- `ndimage.flip_lr`: `rgb[:, ::-1, :]`. -/
def flip_lr {π : Type} (x : Image π) : Image π :=
  x.map List.reverse

/-- `GeneratorContext.do_augmentation(rand, probability)`: augmentation
globally enabled and either `probability >= 1` or the uniform draw
satisfies `rand.rand() <= probability`. -/
def doAugmentation (dataAugmentation : Bool) (probability drawn : ℚ) : Bool :=
  dataAugmentation && (decide (1 ≤ probability) || decide (drawn ≤ probability))

/-- `y.bboxes[:, [0, 2]] = 1 - y.bboxes[:, [2, 0]]` on one bbox row. -/
def flipBoxLR (b : BBox) : BBox :=
  ⟨1 - b.x2, b.y1, 1 - b.x1, b.y2⟩

/-- `RandomFlipLR.execute`: if the probability gate passes, flip the image
and remap the bbox x-extents when the label is an `ObjectsAnnotation`. -/
def randomFlipLR {π ω : Type} (dataAugmentation : Bool) (probability drawn : ℚ)
    (x : Image π) (y : Option FlipLabel) (w : Option ω) :
    Image π × Option FlipLabel × Option ω :=
  if doAugmentation dataAugmentation probability drawn then
    (flip_lr x,
      match y with
      | some (.objects bs) => some (.objects (bs.map flipBoxLR))
      | other => other,
      w)
  else
    (x, y, w)

/-- C5: when `RandomFlipLR` fires on a label carrying bounding boxes,
every box `[x1, y1, x2, y2]` becomes `[1 - x2, y1, 1 - x1, y2]` (y-extents
unchanged), and in particular `[0.1, 0.1, 0.5, 0.5]` becomes
`[0.5, 0.1, 0.9, 0.5]`. -/
theorem randomFlipLR_bbox_spec {π ω : Type} (dataAugmentation : Bool)
    (probability drawn : ℚ) (x : Image π) (bs : List BBox) (w : Option ω)
    (hgate : doAugmentation dataAugmentation probability drawn = true) :
    (randomFlipLR dataAugmentation probability drawn x
        (some (.objects bs)) w).2.1 =
      some (.objects (bs.map (fun b => ⟨1 - b.x2, b.y1, 1 - b.x1, b.y2⟩))) ∧
    (∀ b ∈ bs, (flipBoxLR b).y1 = b.y1 ∧ (flipBoxLR b).y2 = b.y2) ∧
    flipBoxLR ⟨1/10, 1/10, 1/2, 1/2⟩ = ⟨1/2, 1/10, 9/10, 1/2⟩ := by
  refine ⟨?_, fun b _ => ⟨rfl, rfl⟩, ?_⟩
  · simp [randomFlipLR, hgate, flipBoxLR]
  · rw [flipBoxLR]
    show BBox.mk (1 - 1/2) (1/10) (1 - 1/10) (1/2) = _
    norm_num

/-- Witness for C5: augmentation on, `probability = 1`, one box. -/
theorem randomFlipLR_bbox_spec_witness :
    doAugmentation true 1 0 = true ∧
    ((randomFlipLR true 1 0 ([[0]] : Image ℕ)
        (some (.objects [⟨1/10, 1/10, 1/2, 1/2⟩])) (none : Option ℕ)).2.1 =
      some (.objects (([⟨1/10, 1/10, 1/2, 1/2⟩] : List BBox).map
        (fun b => ⟨1 - b.x2, b.y1, 1 - b.x1, b.y2⟩))) ∧
    (∀ b ∈ [(⟨1/10, 1/10, 1/2, 1/2⟩ : BBox)],
        (flipBoxLR b).y1 = b.y1 ∧ (flipBoxLR b).y2 = b.y2) ∧
    flipBoxLR ⟨1/10, 1/10, 1/2, 1/2⟩ = ⟨1/2, 1/10, 9/10, 1/2⟩) :=
  ⟨by decide,
    randomFlipLR_bbox_spec true 1 0 [[0]] [⟨1/10, 1/10, 1/2, 1/2⟩] none (by decide)⟩

/-! ## `mixup` (`pytoolkit/generator.py`) -/

/-- One yielded batch as `mixup` inspects it: a bare array (as
`_get_result` yields when `y is None`) or a tuple of component arrays. -/
inductive BatchVal
  | bare (a : List ℚ)
  | tup (parts : List (List ℚ))

/-- `x1 * m + x2 * (1 - m)` elementwise on one component array. -/
def mixArray (m : ℚ) (a1 a2 : List ℚ) : List ℚ :=
  List.zipWith (fun v1 v2 => v1 * m + v2 * (1 - m)) a1 a2

/-- One iteration of `mixup`'s loop: the tuple/arity assertions, the
`0 <= m <= 1` assertion on the Beta draw, and the convex combination of
corresponding tuple components. `none` models an `AssertionError`. -/
def mixupStep (m : ℚ) (b1 b2 : BatchVal) : Option (List (List ℚ)) :=
  match b1, b2 with
  | .tup p1, .tup p2 =>
      if (p1.length = 2 ∨ p1.length = 3) ∧ (p2.length = 2 ∨ p2.length = 3) ∧
          p1.length = p2.length ∧ 0 ≤ m ∧ m ≤ 1 then
        some (List.zipWith (mixArray m) p1 p2)
      else
        none
  | _, _ => none

/-- `mixup(gen1, gen2)`: `zip` the two batch streams (stopping at the
shorter), abort on the first assertion failure, otherwise yield the mixed
batches; `ms k` is the k-th `random_state.beta(alpha, beta)` draw. -/
def mixup : List BatchVal → List BatchVal → (ℕ → ℚ) → ℕ →
    Option (List (List (List ℚ)))
  | [], _, _, _ => some []
  | _ :: _, [], _, _ => some []
  | b1 :: t1, b2 :: t2, ms, k =>
      match mixupStep (ms k) b1 b2 with
      | none => none
      | some b => (mixup t1 t2 ms (k + 1)).map (b :: ·)

/-- A batch pair that trips one of `mixup`'s structural assertions: not
both tuples, or an arity outside {2, 3}, or unequal arities. -/
def badPair (b1 b2 : BatchVal) : Prop :=
  ∀ p1 p2, b1 = .tup p1 → b2 = .tup p2 →
    ¬((p1.length = 2 ∨ p1.length = 3) ∧ (p2.length = 2 ∨ p2.length = 3) ∧
      p1.length = p2.length)

theorem mixupStep_of_bad {b1 b2 : BatchVal} (h : badPair b1 b2) (m : ℚ) :
    mixupStep m b1 b2 = none := by
  cases b1 with
  | bare a => rfl
  | tup p1 =>
    cases b2 with
    | bare a => rfl
    | tup p2 =>
      rw [mixupStep, if_neg]
      rintro ⟨h1, h2, h3, -⟩
      exact h p1 p2 rfl rfl ⟨h1, h2, h3⟩

theorem mixup_sound (g1 : List BatchVal) : ∀ (g2 : List BatchVal)
    (ms : ℕ → ℚ) (k : ℕ),
    (∀ (i : ℕ) (b1 b2 : BatchVal), (g1.zip g2)[i]? = some (b1, b2) →
      ∃ (p1 p2 : List (List ℚ)), b1 = BatchVal.tup p1 ∧ b2 = BatchVal.tup p2 ∧
        (p1.length = 2 ∨ p1.length = 3) ∧ p2.length = p1.length) →
    (∀ j, 0 ≤ ms j ∧ ms j ≤ 1) →
    ∃ l, mixup g1 g2 ms k = some l ∧ l.length = min g1.length g2.length ∧
      ∀ (i : ℕ) (p1 p2 : List (List ℚ)),
        (g1.zip g2)[i]? = some (BatchVal.tup p1, BatchVal.tup p2) →
        l[i]? = some (List.zipWith (mixArray (ms (k + i))) p1 p2) := by
  induction g1 with
  | nil =>
    intro g2 ms k _ _
    exact ⟨[], rfl, by simp, by intro i p1 p2 h; simp at h⟩
  | cons b1 t1 ih =>
    intro g2 ms k hwf hm
    cases g2 with
    | nil =>
      exact ⟨[], rfl, by simp, by intro i p1 p2 h; simp at h⟩
    | cons b2 t2 =>
      obtain ⟨p1, p2, rfl, rfl, har, heq⟩ := hwf 0 b1 b2 (by simp)
      obtain ⟨l, hl, hlen, hpt⟩ := ih t2 ms (k + 1)
        (fun i c1 c2 hc => hwf (i + 1) c1 c2 (by simpa using hc)) hm
      have hstep : mixupStep (ms k) (.tup p1) (.tup p2) =
          some (List.zipWith (mixArray (ms k)) p1 p2) := by
        rw [mixupStep, if_pos]
        exact ⟨har, by omega, heq.symm, (hm k).1, (hm k).2⟩
      refine ⟨List.zipWith (mixArray (ms k)) p1 p2 :: l, ?_,
        by simp [hlen]; omega, ?_⟩
      · show (match mixupStep (ms k) (.tup p1) (.tup p2) with
          | none => none
          | some b => (mixup t1 t2 ms (k + 1)).map (b :: ·)) = _
        rw [hstep, hl]
        rfl
      · intro i q1 q2 hq
        cases i with
        | zero =>
          simp only [List.zip_cons_cons, List.getElem?_cons_zero,
            Option.some.injEq, Prod.mk.injEq] at hq
          obtain ⟨h1, h2⟩ := hq
          cases h1
          cases h2
          simp
        | succ i =>
          simp only [List.zip_cons_cons, List.getElem?_cons_succ] at hq
          have := hpt i q1 q2 hq
          rw [List.getElem?_cons_succ, this]
          have harith : k + 1 + i = k + (i + 1) := by omega
          rw [harith]

theorem mixup_abort (g1 : List BatchVal) : ∀ (g2 : List BatchVal)
    (ms : ℕ → ℚ) (k i : ℕ) (b1 b2 : BatchVal),
    (g1.zip g2)[i]? = some (b1, b2) → badPair b1 b2 →
    mixup g1 g2 ms k = none := by
  induction g1 with
  | nil =>
    intro g2 ms k i b1 b2 h _
    simp at h
  | cons c1 t1 ih =>
    intro g2 ms k i b1 b2 h hbad
    cases g2 with
    | nil => simp at h
    | cons c2 t2 =>
      show (match mixupStep (ms k) c1 c2 with
        | none => none
        | some b => (mixup t1 t2 ms (k + 1)).map (b :: ·)) = none
      cases i with
      | zero =>
        simp only [List.zip_cons_cons, List.getElem?_cons_zero,
          Option.some.injEq, Prod.mk.injEq] at h
        obtain ⟨h1, h2⟩ := h
        cases h1
        cases h2
        rw [mixupStep_of_bad hbad]
      | succ i =>
        simp only [List.zip_cons_cons, List.getElem?_cons_succ] at h
        rw [ih t2 ms (k + 1) i b1 b2 h hbad]
        cases mixupStep (ms k) c1 c2 <;> rfl

/-- C6: zipping two batch streams, when every paired batch is a tuple of
equal arity 2 or 3 and every Beta draw lies in `[0, 1]`, `mixup` yields one
batch per pair, each equal componentwise to
`m * batch1 + (1 - m) * batch2` for that pair's single draw `m`; a pair
violating the tuple/arity assertions aborts the stream with an assertion
failure. -/
theorem mixup_spec (g1 g2 : List BatchVal) (ms : ℕ → ℚ) :
    ((∀ (i : ℕ) (b1 b2 : BatchVal), (g1.zip g2)[i]? = some (b1, b2) →
        ∃ (p1 p2 : List (List ℚ)), b1 = BatchVal.tup p1 ∧ b2 = BatchVal.tup p2 ∧
          (p1.length = 2 ∨ p1.length = 3) ∧ p2.length = p1.length) →
      (∀ j, 0 ≤ ms j ∧ ms j ≤ 1) →
      ∃ l, mixup g1 g2 ms 0 = some l ∧ l.length = min g1.length g2.length ∧
        ∀ (i : ℕ) (p1 p2 : List (List ℚ)),
          (g1.zip g2)[i]? = some (BatchVal.tup p1, BatchVal.tup p2) →
          l[i]? = some (List.zipWith (mixArray (ms i)) p1 p2)) ∧
    (∀ (i : ℕ) (b1 b2 : BatchVal), (g1.zip g2)[i]? = some (b1, b2) →
      badPair b1 b2 → mixup g1 g2 ms 0 = none) := by
  constructor
  · intro hwf hm
    obtain ⟨l, hl, hlen, hpt⟩ := mixup_sound g1 g2 ms 0 hwf hm
    exact ⟨l, hl, hlen, fun i p1 p2 h => by
      have := hpt i p1 p2 h
      rwa [Nat.zero_add] at this⟩
  · intro i b1 b2 h hbad
    exact mixup_abort g1 g2 ms 0 i b1 b2 h hbad

/-- Witness for C6: two one-batch streams of arity 2 with Beta draws all
`0`, mixed successfully; and a bare/tuple pair aborts. -/
theorem mixup_spec_witness :
    (∃ l, mixup [.tup [[1, 2], [3]]] [.tup [[5, 6], [7]]] (fun _ => 0) 0 =
        some l ∧
      l.length = min 1 1 ∧
      ∀ i p1 p2,
        ([BatchVal.tup [[1, 2], [3]]].zip [BatchVal.tup [[5, 6], [7]]])[i]? =
          some (.tup p1, .tup p2) →
        l[i]? = some (List.zipWith (mixArray ((fun _ : ℕ => (0 : ℚ)) i)) p1 p2)) ∧
    mixup [.bare [1]] [.tup [[5, 6], [7]]] (fun _ => 0) 0 = none := by
  constructor
  · refine (mixup_spec [.tup [[1, 2], [3]]] [.tup [[5, 6], [7]]] (fun _ => 0)).1
      ?_ ?_
    · intro i b1 b2 h
      cases i with
      | zero =>
        refine ⟨[[1, 2], [3]], [[5, 6], [7]], ?_, ?_, by simp, by simp⟩ <;>
          simp_all
      | succ i => simp at h
    · intro j
      exact ⟨le_refl 0, by norm_num⟩
  · refine (mixup_spec [.bare [1]] [.tup [[5, 6], [7]]] (fun _ => 0)).2 0
      (.bare [1]) (.tup [[5, 6], [7]]) (by simp) ?_
    intro p1 p2 h
    cases h

/-! ## `RandomErasing._erase_random` (`pytoolkit/image.py`) -/

/-- One candidate rectangle per try: `ew`, `eh` from the scale/aspect
draws, `ex`, `ey` from the position draws. -/
structure EraseCand where
  ew : ℕ
  eh : ℕ
  ex : ℕ
  ey : ℕ

/-- `np.logical_and(box_lt <= p, p <= box_rb).all(axis=-1)` for one
point. -/
def pointIn (ltx lty rbx rby px py : ℚ) : Bool :=
  decide (ltx ≤ px) && decide (px ≤ rbx) && decide (lty ≤ py) && decide (py ≤ rby)

/-- The vertex/center exclusion test of `_erase_random`: the candidate is
rejected when it contains a bbox's left-top, right-bottom, left-bottom,
the point built from columns `(1, 2)` (the code's `bb_rt`), or center. -/
def candBoxBad (bbs : List BBox) (c : EraseCand) : Bool :=
  let ltx : ℚ := c.ex
  let lty : ℚ := c.ey
  let rbx : ℚ := c.ex + c.ew
  let rby : ℚ := c.ey + c.eh
  bbs.any (fun b => pointIn ltx lty rbx rby b.x1 b.y1) ||
    bbs.any (fun b => pointIn ltx lty rbx rby b.x2 b.y2) ||
    bbs.any (fun b => pointIn ltx lty rbx rby b.x1 b.y2) ||
    bbs.any (fun b => pointIn ltx lty rbx rby b.y1 b.x2) ||
    bbs.any (fun b => pointIn ltx lty rbx rby ((b.x1 + b.x2) / 2) ((b.y1 + b.y2) / 2))

/-- The 25%-area test of `_erase_random`: the candidate is rejected when
its intersection with some bbox reaches a quarter of that bbox's area. -/
def candAreaBad (bbs : List BBox) (c : EraseCand) : Bool :=
  let ltx0 : ℚ := c.ex
  let lty0 : ℚ := c.ey
  let rbx0 : ℚ := c.ex + c.ew
  let rby0 : ℚ := c.ey + c.eh
  bbs.any (fun b =>
    let ltx := max b.x1 ltx0
    let lty := max b.y1 lty0
    let rbx := min b.x2 rbx0
    let rby := min b.y2 rby0
    let inter := (rbx - ltx) * (rby - lty) *
      (if ltx < rbx ∧ lty < rby then 1 else 0)
    decide ((b.x2 - b.x1) * (b.y2 - b.y1) * (1 / 4) ≤ inter))

/-- The size test of `_erase_random`: `ew <= 0 or eh <= 0 or ew >= W or
eh >= H` rejects the candidate. -/
def candSizeOk (wdt hgt : ℕ) (c : EraseCand) : Bool :=
  decide (0 < c.ew) && decide (0 < c.eh) && decide (c.ew < wdt) &&
    decide (c.eh < hgt)

/-- Whether a candidate passes every constraint of one loop iteration of
`_erase_random` (bbox tests skipped when `bboxes is None`). -/
def candOk (wdt hgt : ℕ) (bbs : Option (List BBox)) (c : EraseCand) : Bool :=
  candSizeOk wdt hgt c &&
    (match bbs with
     | none => true
     | some bs => !(candBoxBad bs c) && !(candAreaBad bs c))

/-- `x[ey:ey+eh, ex:ex+ew, :] = color`. -/
def eraseRect {π : Type} (x : Image π) (c : EraseCand) (color : π) : Image π :=
  x.mapIdx (fun i row =>
    if c.ey ≤ i ∧ i < c.ey + c.eh then
      row.mapIdx (fun j v => if c.ex ≤ j ∧ j < c.ex + c.ew then color else v)
    else
      row)

/-- The `for _ in range(max_tries)` loop of `_erase_random`: try candidate
`i`, erase and stop on the first valid one, return `x` unmodified when the
tries run out. `cands i` and `colors i` are the draws of try `i`. -/
def eraseRandomLoop {π : Type} (wdt hgt : ℕ) (bbs : Option (List BBox))
    (x : Image π) (cands : ℕ → EraseCand) (colors : ℕ → π) :
    ℕ → ℕ → Image π
  | 0, _ => x
  | t + 1, i =>
      if candOk wdt hgt bbs (cands i) then
        eraseRect x (cands i) (colors i)
      else
        eraseRandomLoop wdt hgt bbs x cands colors t (i + 1)

/-- `RandomErasing._erase_random`: image width and height come from
`x.shape`. -/
def eraseRandom {π : Type} (bbs : Option (List BBox)) (x : Image π)
    (cands : ℕ → EraseCand) (colors : ℕ → π) (maxTries : ℕ) : Image π :=
  eraseRandomLoop (x.headD []).length x.length bbs x cands colors maxTries 0

theorem eraseRandomLoop_exhaust {π : Type} (wdt hgt : ℕ)
    (bbs : Option (List BBox)) (x : Image π) (cands : ℕ → EraseCand)
    (colors : ℕ → π) : ∀ t i,
    (∀ j, i ≤ j → j < i + t → candOk wdt hgt bbs (cands j) = false) →
    eraseRandomLoop wdt hgt bbs x cands colors t i = x := by
  intro t
  induction t with
  | zero => intro i _; rfl
  | succ t ih =>
    intro i hbad
    show (if candOk wdt hgt bbs (cands i) then eraseRect x (cands i) (colors i)
      else eraseRandomLoop wdt hgt bbs x cands colors t (i + 1)) = x
    rw [hbad i (le_refl i) (by omega), if_neg (by simp)]
    exact ih (i + 1) (fun j h1 h2 => hbad j (by omega) (by omega))

theorem eraseRandomLoop_depends_only_on_tries {π : Type} (wdt hgt : ℕ)
    (bbs : Option (List BBox)) (x : Image π) (cands cands' : ℕ → EraseCand)
    (colors colors' : ℕ → π) : ∀ t i,
    (∀ j, i ≤ j → j < i + t → cands j = cands' j ∧ colors j = colors' j) →
    eraseRandomLoop wdt hgt bbs x cands colors t i =
      eraseRandomLoop wdt hgt bbs x cands' colors' t i := by
  intro t
  induction t with
  | zero => intro i _; rfl
  | succ t ih =>
    intro i hagree
    obtain ⟨hc, hcol⟩ := hagree i (le_refl i) (by omega)
    show (if candOk wdt hgt bbs (cands i) then eraseRect x (cands i) (colors i)
        else eraseRandomLoop wdt hgt bbs x cands colors t (i + 1)) =
      (if candOk wdt hgt bbs (cands' i) then eraseRect x (cands' i) (colors' i)
        else eraseRandomLoop wdt hgt bbs x cands' colors' t (i + 1))
    rw [hc, hcol]
    by_cases hok : candOk wdt hgt bbs (cands' i) = true
    · rw [if_pos hok, if_pos hok]
    · rw [if_neg hok, if_neg hok]
      exact ih (i + 1) (fun j h1 h2 => hagree j (by omega) (by omega))

/-- C7: the Random-Erasing rectangle search inspects at most `max_tries`
candidate draws (the result depends only on the first `max_tries` entries
of the draw streams), and when no candidate within `max_tries` passes the
size, vertex/center-exclusion and 25%-area constraints the image is
returned unmodified, with no error. -/
theorem eraseRandom_bounded_search {π : Type} (bbs : Option (List BBox))
    (x : Image π) (cands : ℕ → EraseCand) (colors : ℕ → π) (maxTries : ℕ) :
    ((∀ j < maxTries,
        candOk (x.headD []).length x.length bbs (cands j) = false) →
      eraseRandom bbs x cands colors maxTries = x) ∧
    (∀ (cands' : ℕ → EraseCand) (colors' : ℕ → π),
      (∀ j < maxTries, cands j = cands' j ∧ colors j = colors' j) →
      eraseRandom bbs x cands colors maxTries =
        eraseRandom bbs x cands' colors' maxTries) := by
  constructor
  · intro hbad
    exact eraseRandomLoop_exhaust _ _ bbs x cands colors maxTries 0
      (fun j _ h2 => hbad j (by omega))
  · intro cands' colors' hagree
    exact eraseRandomLoop_depends_only_on_tries _ _ bbs x cands cands' colors
      colors' maxTries 0 (fun j _ h2 => hagree j (by omega))

/-- Witness for C7: a 1×1 image rejects every 1×1 candidate rectangle
(`ew >= W`), so after the default 30 tries the image is unmodified. -/
theorem eraseRandom_bounded_search_witness :
    (∀ j < 30, candOk (([[0]] : Image ℕ).headD []).length
        ([[0]] : Image ℕ).length none ((fun _ => ⟨1, 1, 0, 0⟩ :
          ℕ → EraseCand) j) = false) ∧
    eraseRandom none ([[0]] : Image ℕ) (fun _ => ⟨1, 1, 0, 0⟩) (fun _ => 7)
      30 = [[0]] :=
  ⟨by decide,
    (eraseRandom_bounded_search none [[0]] (fun _ => ⟨1, 1, 0, 0⟩)
      (fun _ => 7) 30).1 (by decide)⟩

/-! ## Batch assembly (`_get_result`, `pytoolkit/generator.py`) -/

/-- `_get(arr, multiple)`: `np.asarray(arr)` keeps the outer (sample)
axis, `[np.asarray(a) for a in zip(*arr)]` transposes samples and output
positions. `arr` is the list of per-sample values. -/
def getPart {α : Type} (multiple : Bool) (arr : List (List α)) :
    List (List α) :=
  if multiple then arr.transpose else arr

/-- What `_get_result` hands to Keras: a bare stacked input, an
`(inputs, outputs)` pair, or an `(inputs, outputs, weights)` triple with
the weights stacked as one array. -/
inductive BatchResult (α β γ : Type)
  | xonly (xs : List (List α))
  | xy (xs : List (List α)) (ys : List (List β))
  | xyw (xs : List (List α)) (ys : List (List β)) (ws : List γ)

/-- `_get_result(X, y, weights, rx, ry, rw, multiple_input,
multiple_output)`; `none` models the `assert weights is None` failure. -/
def getResult {α β γ υ ω : Type} (y : Option υ) (weights : Option ω)
    (rx : List (List α)) (ry : List (List β)) (rw : List γ) (mi mo : Bool) :
    Option (BatchResult α β γ) :=
  match y, weights with
  | none, some _ => none
  | none, none => some (.xonly (getPart mi rx))
  | some _, none => some (.xy (getPart mi rx) (getPart mo ry))
  | some _, some _ => some (.xyw (getPart mi rx) (getPart mo ry) rw)

/-- C10: batch assembly asserts that labels are present whenever weights
are (`y = None` with weights present fails); with neither, the bare
stacked inputs are yielded (not a tuple); with labels only, a 2-tuple;
with both, a 3-tuple whose weight component is the raw stacked weight
list, identical for every value of the multiple-output flag. -/
theorem getResult_spec {α β γ υ ω : Type} (y : Option υ) (weights : Option ω)
    (rx : List (List α)) (ry : List (List β)) (rw : List γ) (mi mo : Bool) :
    (getResult y weights rx ry rw mi mo = none ↔
      (y = none ∧ weights ≠ none)) ∧
    (y = none → weights = none →
      getResult y weights rx ry rw mi mo = some (.xonly (getPart mi rx))) ∧
    (y ≠ none → weights = none →
      getResult y weights rx ry rw mi mo =
        some (.xy (getPart mi rx) (getPart mo ry))) ∧
    (y ≠ none → weights ≠ none → ∀ mo' : Bool,
      getResult y weights rx ry rw mi mo' =
        some (.xyw (getPart mi rx) (getPart mo' ry) rw)) := by
  cases y <;> cases weights <;> simp [getResult]

/-- Witness for C10: labels and weights both present, arity-3 result with
the weight list passed through for either multiple-output flag. -/
theorem getResult_spec_witness :
    ((some 0 : Option ℕ) ≠ none ∧
      getResult (some 0) (some 0) [[1], [2]] [[3], [4]] [5, 6] false true =
        some (.xyw [[1], [2]] ([[3], [4]] : List (List ℕ)).transpose
          ([5, 6] : List ℕ)) ∧
      getResult (some 0) (some 0) [[1], [2]] [[3], [4]] [5, 6] false false =
        some (.xyw [[1], [2]] ([[3], [4]] : List (List ℕ)) ([5, 6] : List ℕ))) ∧
    (∀ mo' : Bool,
      getResult (some 0) ((some 0 : Option ℕ)) ([[1], [2]] : List (List ℕ))
          ([[3], [4]] : List (List ℕ)) ([5, 6] : List ℕ) false mo' =
        some (.xyw (getPart false [[1], [2]]) (getPart mo' [[3], [4]]) [5, 6])) :=
  ⟨⟨by decide, by rfl, by rfl⟩,
    (getResult_spec (some 0) (some 0) [[1], [2]] [[3], [4]] [5, 6] false
      true).2.2.2 (by decide) (by decide)⟩

end Pytoolkit
